import Mathlib

/-! Verification of the manifest data model and reconciliation engine of
`video_clipper.py` against its specification.

The Python program is shallowly embedded: Python dicts become ordered
association lists (`List (String × _)`) with Python's insertion semantics,
the JSON documents of the manifest format become the inductive `Json`
(the documented format only has string leaves and objects), the output
directory becomes an association list from file name to file content, and
the SHA-256 digest of a file is modelled as an injective function of the
file's content.  Fallible operations return `Option`/`Except`. -/

/-- JSON values as used by the manifest document format: string leaves and
objects with ordered fields (Python dicts preserve insertion order and
have unique keys). -/
inductive Json where
  | str (s : String)
  | obj (fields : List (String × Json))

def KEY_VERSION : String := "version"

def KEY_VIDEOS : String := "videos"

def KEY_START : String := "start"

def KEY_END : String := "end"

def KEY_CLIPS : String := "clips"

def KEY_SHA256_CHECKSUM : String := "sha256_checksum"

/-- `d.get(k)` on a Python dict, modelled as first-match lookup in the
ordered association list. -/
def dget {α : Type} : List (String × α) → String → Option α
  | [], _ => none
  | (k, v) :: rest, key => if k = key then some v else dget rest key

/-- `d[k] = v` on a Python dict: replace the value in place if the key
exists (keeping its position), otherwise append the new entry at the end. -/
def dictInsert {α : Type} : List (String × α) → String → α → List (String × α)
  | [], key, v => [(key, v)]
  | (k, w) :: rest, key, v =>
    if k = key then (key, v) :: rest else (k, w) :: dictInsert rest key v

/-- `VideoClip` dataclass: one declared output clip. -/
structure VideoClip where
  filename : String
  start_timestamp : String
  end_timestamp : String
  sha256_checksum : String
deriving DecidableEq

/-- `VideoFile` dataclass: one source file and its declared clips. -/
structure VideoFile where
  filename : String
  clips : List (String × VideoClip)
deriving DecidableEq

/-- `VideoClipperManifest` dataclass.  The source stores the raw document
value found under "version" without inspecting it, so the field keeps the
`Json` type. -/
structure VideoClipperManifest where
  version : Json
  video_files : List (String × VideoFile)

/-- Extract the string payload of a JSON value, if it is a string. -/
def jstr? : Option Json → Option String
  | some (Json.str s) => some s
  | _ => none

/-- `VideoClip.from_json`: requires `start` and `end`; a missing
`sha256_checksum` defaults to the sentinel "none". -/
def VideoClip.from_json (clip_name : String) (clip_json : List (String × Json)) :
    Option VideoClip :=
  match jstr? (dget clip_json KEY_START) with
  | none => none
  | some start_timestamp =>
    match jstr? (dget clip_json KEY_END) with
    | none => none
    | some end_timestamp =>
      let sha256_checksum := (jstr? (dget clip_json KEY_SHA256_CHECKSUM)).getD "none"
      some ⟨clip_name, start_timestamp, end_timestamp, sha256_checksum⟩

/-- `VideoClip.to_json`: fields emitted in the order start, end, checksum. -/
def VideoClip.to_json (c : VideoClip) : List (String × Json) :=
  [(KEY_START, Json.str c.start_timestamp),
   (KEY_END, Json.str c.end_timestamp),
   (KEY_SHA256_CHECKSUM, Json.str c.sha256_checksum)]

/-- The clip-parsing loop of `VideoFile.from_json`: the first failing clip
aborts, successful clips are inserted into the `clips` dict in order. -/
def parseClips : List (String × Json) → List (String × VideoClip) →
    Option (List (String × VideoClip))
  | [], acc => some acc
  | (clip_name, clip_json) :: rest, acc =>
    match clip_json with
    | Json.obj fields =>
      match VideoClip.from_json clip_name fields with
      | none => none
      | some clip => parseClips rest (dictInsert acc clip_name clip)
    | _ => none

/-- `VideoFile.from_json`: requires a `clips` object. -/
def VideoFile.from_json (video_name : String) (video_json : List (String × Json)) :
    Option VideoFile :=
  match dget video_json KEY_CLIPS with
  | some (Json.obj clipEntries) =>
    match parseClips clipEntries [] with
    | none => none
    | some clips => some ⟨video_name, clips⟩
  | _ => none

/-- `VideoFile.to_json`: the dict comprehension keys each entry by the
clip's `filename` field. -/
def VideoFile.to_json (v : VideoFile) : List (String × Json) :=
  [(KEY_CLIPS, Json.obj (v.clips.map (fun p => (p.2.filename, Json.obj p.2.to_json))))]

/-- The video-parsing loop of `VideoClipperManifest.from_json`. -/
def parseVideos : List (String × Json) → List (String × VideoFile) →
    Option (List (String × VideoFile))
  | [], acc => some acc
  | (video_name, video_json) :: rest, acc =>
    match video_json with
    | Json.obj fields =>
      match VideoFile.from_json video_name fields with
      | none => none
      | some vf => parseVideos rest (dictInsert acc video_name vf)
    | _ => none

/-- `VideoClipperManifest.from_json`: requires `version`, then `videos`. -/
def VideoClipperManifest.from_json (doc : Json) : Option VideoClipperManifest :=
  match doc with
  | Json.obj manifest_json =>
    match dget manifest_json KEY_VERSION with
    | none => none
    | some version =>
      match dget manifest_json KEY_VIDEOS with
      | some (Json.obj videoEntries) =>
        match parseVideos videoEntries [] with
        | none => none
        | some vfs => some ⟨version, vfs⟩
      | _ => none
  | _ => none

/-- `VideoClipperManifest.to_json`: version first, then the videos object,
in stored (insertion) order. -/
def VideoClipperManifest.to_json (m : VideoClipperManifest) : Json :=
  Json.obj [(KEY_VERSION, m.version),
            (KEY_VIDEOS, Json.obj (m.video_files.map
              (fun p => (p.2.filename, Json.obj p.2.to_json))))]

/-- Numeric value of an ASCII digit character. -/
def digitVal (c : Char) : Nat := c.toNat - '0'.toNat

/-- Starts of the runs of ten consecutive Unicode decimal-digit code
points (category Nd, Unicode 14.0 as shipped with CPython 3.11): exactly
the characters Python's `\d` matches in a str pattern and `int` accepts,
each run holding one script's digits 0–9 in order. -/
def ndRunStarts : List Nat :=
  [48, 1632, 1776, 1984, 2406, 2534, 2662, 2790, 2918, 3046, 3174, 3302,
   3430, 3558, 3664, 3792, 3872, 4160, 4240, 6112, 6160, 6470, 6608, 6784,
   6800, 6992, 7088, 7232, 7248, 42528, 43216, 43264, 43472, 43504, 43600,
   44016, 65296, 66720, 68912, 69734, 69872, 69942, 70096, 70384, 70736,
   70864, 71248, 71360, 71472, 71904, 72016, 72784, 73040, 73120, 92768,
   92864, 93008, 120782, 120792, 120802, 120812, 120822, 123200, 123632,
   125264, 130032]

/-- Python's `\d` on a str pattern: any Unicode decimal digit. -/
def pyIsDigit (c : Char) : Bool :=
  ndRunStarts.any (fun r => decide (r ≤ c.toNat) && decide (c.toNat < r + 10))

/-- The decimal value `int` assigns a Unicode digit: its offset within
its run. -/
def pyDigitVal (c : Char) : Nat :=
  match ndRunStarts.find? (fun r => decide (r ≤ c.toNat) && decide (c.toNat < r + 10)) with
  | some r => c.toNat - r
  | none => 0

/-- The body of `is_valid_time_format`, on the character list of the
timestamp: `re.match` of `^\d{2}:\d{2}:\d{2}$` — where `\d` is any
Unicode decimal digit and `$` also matches just before one trailing
newline — followed by the range checks on the `int` values of the three
colon-separated fields (`int` strips the trailing newline). -/
def is_valid_chars : List Char → Bool
  | [h1, h2, c1, m1, m2, c2, s1, s2] =>
    pyIsDigit h1 && pyIsDigit h2 && (c1 == ':') && pyIsDigit m1 && pyIsDigit m2 &&
    (c2 == ':') && pyIsDigit s1 && pyIsDigit s2 &&
    (pyDigitVal h1 * 10 + pyDigitVal h2 ≤ 24 : Bool) &&
    (pyDigitVal m1 * 10 + pyDigitVal m2 ≤ 60 : Bool) &&
    (pyDigitVal s1 * 10 + pyDigitVal s2 ≤ 60 : Bool)
  | [h1, h2, c1, m1, m2, c2, s1, s2, '\n'] =>
    pyIsDigit h1 && pyIsDigit h2 && (c1 == ':') && pyIsDigit m1 && pyIsDigit m2 &&
    (c2 == ':') && pyIsDigit s1 && pyIsDigit s2 &&
    (pyDigitVal h1 * 10 + pyDigitVal h2 ≤ 24 : Bool) &&
    (pyDigitVal m1 * 10 + pyDigitVal m2 ≤ 60 : Bool) &&
    (pyDigitVal s1 * 10 + pyDigitVal s2 ≤ 60 : Bool)
  | _ => false

/-- `is_valid_time_format`. -/
def is_valid_time_format (timestamp : String) : Bool :=
  is_valid_chars timestamp.data

/-- The Hashing Service `sha25_hash_of_file`.  The source streams the
file's bytes through SHA-256 and returns the hex digest; the embedding
models the digest as an injective function of the file's content. -/
def sha25_hash_of_file (content : String) : String :=
  "sha256:" ++ content

/-- `validate_input_files`: every source file must exist under the input
directory (modelled as the list of files present there) and every clip's
two timestamps must satisfy the timestamp grammar.  Clips on disk are not
checked. -/
def validate_input_files (m : VideoClipperManifest) (input_files : List String) : Bool :=
  m.video_files.all (fun p =>
    input_files.contains p.2.filename &&
    p.2.clips.all (fun q =>
      is_valid_time_format q.2.start_timestamp &&
      is_valid_time_format q.2.end_timestamp))

/-- `should_clip_video`, together with the messages it writes: produce if
the output file is absent; skip silently if overwriting is not allowed;
otherwise skip when the on-disk hash equals the recorded checksum and
produce (reporting the mismatch) when it does not.  The output directory
is an association list from file name to file content. -/
def should_clip_video (clip : VideoClip) (output_dir : List (String × String))
    (overwrite : Bool) : Bool × List String :=
  match dget output_dir clip.filename with
  | none => (true, [])
  | some content =>
    if !overwrite then (false, [])
    else if sha25_hash_of_file content == clip.sha256_checksum then (false, [])
    else (true, ["Hash mismatch for clip " ++ clip.filename])

/-- Effects performed by `save_manifest`. -/
inductive SaveEffect where
  | backupCopy
  | writeManifest (doc : Json)

/-- `save_manifest`: in dryrun mode nothing is written; otherwise a
backup copy is made (unless suppressed) and the serialized manifest is
written over the manifest path. -/
def save_manifest (m : VideoClipperManifest) (no_backup dryrun : Bool) :
    List SaveEffect :=
  if dryrun then []
  else (if no_backup then [] else [SaveEffect.backupCopy]) ++
    [SaveEffect.writeManifest m.to_json]

/-- Index (from the front) of the last '.' in a character list, if any. -/
def lastDotIdx (l : List Char) : Option Nat :=
  match l.reverse.findIdx? (fun c => c == '.') with
  | none => none
  | some j => some (l.length - 1 - j)

/-- `pathlib.PurePath.suffix` of a single-component relative name: the
part from the last dot on, provided that dot is neither the first nor the
last character; otherwise the empty string. -/
def pySuffix (name : String) : String :=
  match lastDotIdx name.data with
  | some i => if 0 < i ∧ i < name.data.length - 1 then ⟨name.data.drop i⟩ else ""
  | none => ""

/-- `pathlib.PurePath.stem` of a single-component relative name. -/
def pyStem (name : String) : String :=
  match lastDotIdx name.data with
  | some i => if 0 < i ∧ i < name.data.length - 1 then ⟨name.data.take i⟩ else name

  | none => name

/-- Decimal rendering of a natural number, as Python's f-string does.
Defined through `Nat.digits` so that injectivity is provable. -/
def natRepr (n : Nat) : String :=
  if n = 0 then "0" else ⟨(Nat.digits 10 n).reverse.map Nat.digitChar⟩

/-- The candidate name `f"{input_path.stem}_{clip_idx}{input_path.suffix}"`
tried by the naming loop of `VideoFile.add_new_clip`. -/
def clip_candidate (filename : String) (clip_idx : Nat) : String :=
  pyStem filename ++ "_" ++ natRepr clip_idx ++ pySuffix filename

/-- The `while True` search of `VideoFile.add_new_clip`, with explicit
fuel.  `existing.length + 1` candidate names are pairwise distinct, so the
fuel supplied by `generate_identifier` is never exhausted (proved below);
the fuel-out branch is unreachable. -/
def generate_identifier_go (filename : String) (existing : List String) :
    Nat → Nat → String
  | 0, clip_idx => clip_candidate filename clip_idx
  | fuel + 1, clip_idx =>
    if existing.contains (clip_candidate filename clip_idx) then
      generate_identifier_go filename existing fuel (clip_idx + 1)
    else clip_candidate filename clip_idx

/-- The Naming Policy: search ordinals 0, 1, 2, … for the first candidate
name not already among the existing clip names. -/
def generate_identifier (filename : String) (existing : List String) : String :=
  generate_identifier_go filename existing (existing.length + 1) 0

/-- `VideoFile.add_new_clip`: reject a duplicate `(start, end)` pair,
otherwise insert a fresh clip under a generated name.  Python mutates the
dataclass in place; the embedding returns the outcome and the new value. -/
def VideoFile.add_new_clip (v : VideoFile) (begin_ end_ : String) :
    Bool × VideoFile :=
  if v.clips.any (fun p => p.2.start_timestamp == begin_ && p.2.end_timestamp == end_) then
    (false, v)
  else
    let name := generate_identifier v.filename (v.clips.map Prod.fst)
    (true, { v with clips := dictInsert v.clips name ⟨name, begin_, end_, "none"⟩ })

/-- `VideoClipperManifest.add_new_clip`: create the `VideoFile` entry if
absent, then delegate.  Python inserts the (possibly new) entry into the
dict and mutates it in place; the embedding reinserts the updated value,
which coincides with the in-place mutation. -/
def VideoClipperManifest.add_new_clip (m : VideoClipperManifest)
    (input_filename begin_ end_ : String) : Bool × VideoClipperManifest :=
  match dget m.video_files input_filename with
  | none =>
    let res := VideoFile.add_new_clip ⟨input_filename, []⟩ begin_ end_
    (res.1, { m with video_files := dictInsert m.video_files input_filename res.2 })
  | some vf =>
    let res := VideoFile.add_new_clip vf begin_ end_
    (res.1, { m with video_files := dictInsert m.video_files input_filename res.2 })

/-- The timestamp checks performed by `add_command` before mutating the
manifest: both timestamps must match the grammar and `args.start >=
args.end` is rejected, so the addition proceeds only when start is
lexicographically smaller than end. -/
def add_command_checks (start_ end_ : String) : Bool :=
  is_valid_time_format start_ && is_valid_time_format end_ &&
    !(decide (end_ ≤ start_))

/-- One invocation of the external materializer (the ffmpeg call of
`clip_video`): source path, the two timestamps and the destination path. -/
structure Invocation where
  source_file : String
  start_timestamp : String
  end_timestamp : String
  dest_file : String
deriving DecidableEq

/-- Observable outcome of the reconciliation loop of `clip_command`:
the processed clip list (with updated checksums), the final output
directory, the materializer invocations issued and the messages written. -/
structure BatchResult where
  clips : List (String × VideoClip)
  output_dir : List (String × String)
  invocations : List Invocation
  reports : List String
deriving DecidableEq

/-- State of the destination file after a materializer invocation:
`some content` if a file is in place afterwards, `none` if not. -/
def fsAfter (fs : List (String × String)) (name : String) :
    Option String → List (String × String)
  | some content => dictInsert fs name content
  | none => fs.filter (fun p => !(p.1 == name))

/-- The reconciliation loop of `clip_command` over the flattened
`(video, clip)` list.  The materializer is an oracle giving, per
invocation, ffmpeg's return code and the resulting state of the
destination file.  A non-zero return code is only reported; the loop then
unconditionally recomputes the destination's hash and stores it on the
clip.  If the destination file is absent at that point,
`sha25_hash_of_file` raises and `clip_command` aborts with nothing saved,
modelled by `Except.error`. -/
def clip_batch (mat : Invocation → Int × Option String) (overwrite dryrun : Bool) :
    List (String × VideoClip) → List (String × String) → Except Unit BatchResult
  | [], fs => Except.ok ⟨[], fs, [], []⟩
  | (video_name, clip) :: rest, fs =>
    let dec := should_clip_video clip fs overwrite
    if dec.1 = false then
      match clip_batch mat overwrite dryrun rest fs with
      | Except.error e => Except.error e
      | Except.ok r =>
        Except.ok ⟨(video_name, clip) :: r.clips, r.output_dir, r.invocations,
          dec.2 ++ r.reports⟩
    else if dryrun then
      match clip_batch mat overwrite dryrun rest fs with
      | Except.error e => Except.error e
      | Except.ok r =>
        Except.ok ⟨(video_name, clip) :: r.clips, r.output_dir, r.invocations,
          dec.2 ++ ("Dryrun: would have clipped " ++ clip.filename) :: r.reports⟩
    else
      let inv : Invocation :=
        ⟨video_name, clip.start_timestamp, clip.end_timestamp, clip.filename⟩
      let res := mat inv
      let fs1 := fsAfter fs clip.filename res.2
      let failMsgs : List String :=
        if res.1 == 0 then [] else ["Error creating clip " ++ clip.filename]
      match dget fs1 clip.filename with
      | none => Except.error ()
      | some content =>
        let clip' := { clip with sha256_checksum := sha25_hash_of_file content }
        match clip_batch mat overwrite dryrun rest fs1 with
        | Except.error e => Except.error e
        | Except.ok r =>
          Except.ok ⟨(video_name, clip') :: r.clips, r.output_dir,
            inv :: r.invocations, dec.2 ++ failMsgs ++ r.reports⟩

/-- Drop a literal segment from the front of a character list, if it is
there. -/
def stripSeg : List Char → List Char → Option (List Char)
  | [], cs => some cs
  | _ :: _, [] => none
  | p :: ps, c :: cs => if p = c then stripSeg ps cs else none

/-- Matching of the glob pattern `f"{stem}_[0-9]*{ext}"` used by
`prune_command`: the literal stem and underscore, exactly one digit,
then any sequence of characters, then the literal extension. -/
def glob_matches (stem ext : String) (name : String) : Bool :=
  match stripSeg (stem.data ++ ['_']) name.data with
  | none => false
  | some rest =>
    match rest with
    | [] => false
    | d :: rest2 => d.isDigit && List.isSuffixOf ext.data rest2

/-- The set of clip names declared anywhere in the manifest
(`known_clip_names` of `prune_command`: the union over all videos). -/
def known_clip_names (m : VideoClipperManifest) : List String :=
  m.video_files.foldr (fun p acc => p.2.clips.map Prod.fst ++ acc) []

/-- The prune computation of `prune_command`: for each video, the glob
matches under the output directory that are regular files and whose name
is not declared anywhere in the manifest.  The output directory is a list
of entries `(name, is regular file)`. -/
def compute_prune_set (m : VideoClipperManifest)
    (output_dir : List (String × Bool)) : List String :=
  m.video_files.foldr (fun p acc =>
    (output_dir.filter (fun ent =>
      glob_matches (pyStem p.1) (pySuffix p.1) ent.1 &&
      !(known_clip_names m).contains ent.1 &&
      ent.2)).map Prod.fst ++ acc) []

/-! Specification-side definitions.  The following definitions are written
from the specification's words (not from the source), to be compared with
the embedded code above. -/

/-- The three possible per-artifact reconciliation actions of the
specification's decision table. -/
inductive ReconcileAction where
  | produce
  | skip
  | produceReportMismatch
deriving DecidableEq

/-- The specification's four-row decision table, as stated: file absent →
produce; overwrite not allowed → skip; hash matches → skip; otherwise
produce after reporting the mismatch. -/
def decision_table (output_exists overwrite hash_matches : Bool) : ReconcileAction :=
  if output_exists = false then ReconcileAction.produce
  else if overwrite = false then ReconcileAction.skip
  else if hash_matches then ReconcileAction.skip
  else ReconcileAction.produceReportMismatch

/-- The action taken by `should_clip_video`, read off its decision and
messages: producing with a message is producing after reporting the
mismatch. -/
def action_of (r : Bool × List String) : ReconcileAction :=
  if r.1 then
    (if r.2.isEmpty then ReconcileAction.produce
     else ReconcileAction.produceReportMismatch)
  else ReconcileAction.skip

/-- The timestamp grammar as the specification states it: exactly
`DD:DD:DD`, two digits in each of the three colon-separated fields,
with hours at most 24, minutes at most 60, seconds at most 60. -/
def timestamp_spec (s : String) : Prop :=
  ∃ h1 h2 m1 m2 s1 s2 : Char,
    s.data = [h1, h2, ':', m1, m2, ':', s1, s2] ∧
    h1.isDigit = true ∧ h2.isDigit = true ∧ m1.isDigit = true ∧
    m2.isDigit = true ∧ s1.isDigit = true ∧ s2.isDigit = true ∧
    digitVal h1 * 10 + digitVal h2 ≤ 24 ∧
    digitVal m1 * 10 + digitVal m2 ≤ 60 ∧
    digitVal s1 * 10 + digitVal s2 ≤ 60

/-- The timestamp language the code actually accepts, stated as a
grammar: `DD:DD:DD` with each `D` a Unicode decimal digit, optionally
followed by a single trailing newline, with hours at most 24, minutes at
most 60 and seconds at most 60 computed from the digit values. -/
def timestamp_spec_amended (s : String) : Prop :=
  ∃ h1 h2 m1 m2 s1 s2 : Char,
    (s.data = [h1, h2, ':', m1, m2, ':', s1, s2] ∨
     s.data = [h1, h2, ':', m1, m2, ':', s1, s2, '\n']) ∧
    pyIsDigit h1 = true ∧ pyIsDigit h2 = true ∧ pyIsDigit m1 = true ∧
    pyIsDigit m2 = true ∧ pyIsDigit s1 = true ∧ pyIsDigit s2 = true ∧
    pyDigitVal h1 * 10 + pyDigitVal h2 ≤ 24 ∧
    pyDigitVal m1 * 10 + pyDigitVal m2 ≤ 60 ∧
    pyDigitVal s1 * 10 + pyDigitVal s2 ≤ 60

/-- The naming pattern `{base}_<digits>{ext}` as the specification's prune
section states it: the base, an underscore, one or more digits and nothing
else, then the extension. -/
def strict_pattern (stem ext : String) (name : String) : Bool :=
  match stripSeg (stem.data ++ ['_']) name.data with
  | none => false
  | some rest =>
    (decide (ext.data.length ≤ rest.length)) &&
    (rest.drop (rest.length - ext.data.length) == ext.data) &&
    !(rest.take (rest.length - ext.data.length)).isEmpty &&
    (rest.take (rest.length - ext.data.length)).all Char.isDigit

/-- The prune-set membership formula as the claim states it: `name` is a
regular file under the output directory matching some source's
`{base}_<digits>{ext}` pattern whose name is not a key in that same
source's artifact collection. -/
def claimed_prune_spec (m : VideoClipperManifest)
    (output_dir : List (String × Bool)) (name : String) : Bool :=
  output_dir.contains (name, true) &&
  m.video_files.any (fun p =>
    strict_pattern (pyStem p.1) (pySuffix p.1) name &&
    !(p.2.clips.map Prod.fst).contains name)

/-- A `(start, end)` pair is already declared for a source of the
manifest. -/
def pair_declared (m : VideoClipperManifest) (src begin_ end_ : String) : Bool :=
  match dget m.video_files src with
  | none => false
  | some vf =>
    vf.clips.any (fun p => p.2.start_timestamp == begin_ && p.2.end_timestamp == end_)

/-- A clip object in canonical form: exactly the fields start, end,
sha256_checksum, in that order, with string values. -/
def clip_wf (j : Json) : Bool :=
  match j with
  | Json.obj [(k1, Json.str _), (k2, Json.str _), (k3, Json.str _)] =>
    k1 == KEY_START && k2 == KEY_END && k3 == KEY_SHA256_CHECKSUM
  | _ => false

/-- A video object in canonical form: exactly the `clips` object, clip
names distinct, every clip canonical. -/
def video_wf (j : Json) : Bool :=
  match j with
  | Json.obj [(k, Json.obj clipEntries)] =>
    k == KEY_CLIPS && decide (clipEntries.map Prod.fst).Nodup &&
    clipEntries.all (fun p => clip_wf p.2)
  | _ => false

/-- A manifest document in canonical form: exactly a string `version`
followed by the `videos` object, video names distinct, every video
canonical. -/
def manifest_wf (j : Json) : Bool :=
  match j with
  | Json.obj [(k1, Json.str _), (k2, Json.obj videoEntries)] =>
    k1 == KEY_VERSION && k2 == KEY_VIDEOS &&
    decide (videoEntries.map Prod.fst).Nodup &&
    videoEntries.all (fun p => video_wf p.2)
  | _ => false

/-- Structural well-formedness, exactly what parsing checks: the document
is an object with `version` present and a `videos` object whose entries
each hold a `clips` object whose entries each hold string `start` and
`end` fields. -/
def clip_struct_wf (j : Json) : Bool :=
  match j with
  | Json.obj fields =>
    (jstr? (dget fields KEY_START)).isSome && (jstr? (dget fields KEY_END)).isSome
  | _ => false

/-- Structural well-formedness of a video entry. -/
def video_struct_wf (j : Json) : Bool :=
  match j with
  | Json.obj fields =>
    match dget fields KEY_CLIPS with
    | some (Json.obj entries) => entries.all (fun p => clip_struct_wf p.2)
    | _ => false
  | _ => false

/-- Structural well-formedness of a manifest document. -/
def manifest_struct_wf (j : Json) : Bool :=
  match j with
  | Json.obj fields =>
    (dget fields KEY_VERSION).isSome &&
    (match dget fields KEY_VIDEOS with
     | some (Json.obj entries) => entries.all (fun p => video_struct_wf p.2)
     | _ => false)
  | _ => false

/-- A manifest violating the Artifact invariants: some clip whose start is
not lexicographically below its end, or two clips of one source sharing
their `(start, end)` pair. -/
def violates_artifact_invariants (m : VideoClipperManifest) : Bool :=
  m.video_files.any (fun p =>
    p.2.clips.any (fun q =>
      !(decide (q.2.start_timestamp < q.2.end_timestamp))) ||
    p.2.clips.any (fun q =>
      decide (2 ≤ (p.2.clips.filter (fun r =>
        r.2.start_timestamp == q.2.start_timestamp &&
        r.2.end_timestamp == q.2.end_timestamp)).length)))

/-! Helper lemmas about the Python-dict model. -/

theorem dget_dictInsert_self {α : Type} (l : List (String × α)) (k : String) (v : α) :
    dget (dictInsert l k v) k = some v := by
  induction l with
  | nil => simp [dictInsert, dget]
  | cons p rest ih =>
    by_cases h : p.1 = k
    · simp [dictInsert, dget, h]
    · simpa [dictInsert, dget, h] using ih

theorem dictInsert_of_dget_some {α : Type} {l : List (String × α)} {k : String} {v : α}
    (h : dget l k = some v) : dictInsert l k v = l := by
  induction l with
  | nil => simp [dget] at h
  | cons p rest ih =>
    by_cases hk : p.1 = k
    · simp [dget, hk] at h
      cases p
      simp_all [dictInsert]
    · simp [dget, hk] at h
      simp [dictInsert, hk, ih h]

theorem mem_dictInsert_self {α : Type} (l : List (String × α)) (k : String) (v : α) :
    (k, v) ∈ dictInsert l k v := by
  induction l with
  | nil => simp [dictInsert]
  | cons p rest ih =>
    by_cases h : p.1 = k
    · simp [dictInsert, h]
    · simp [dictInsert, h, ih]

theorem dictInsert_of_dget_none {α : Type} {l : List (String × α)} {k : String}
    (h : dget l k = none) (v : α) : dictInsert l k v = l ++ [(k, v)] := by
  induction l with
  | nil => simp [dictInsert]
  | cons p rest ih =>
    by_cases hk : p.1 = k
    · simp [dget, hk] at h
    · simp [dget, hk] at h
      simp [dictInsert, hk, ih h]

theorem dget_append_of_none {α : Type} {l1 : List (String × α)} {k : String}
    (h : dget l1 k = none) (l2 : List (String × α)) :
    dget (l1 ++ l2) k = dget l2 k := by
  induction l1 with
  | nil => simp
  | cons p rest ih =>
    by_cases hk : p.1 = k
    · simp [dget, hk] at h
    · simp [dget, hk] at h ⊢
      exact ih h

/-- C2.  For every declared artifact, `should_clip_video` returns exactly
the action of the specification's four-row table: output file absent →
PRODUCE; present without overwrite permission → SKIP (silently — no hash
message is emitted); present, overwrite allowed and the on-disk hash equal
to the recorded checksum → SKIP; present, overwrite allowed and the hash
different → PRODUCE with the mismatch reported before producing. -/
theorem spec_c2_decision_table (clip : VideoClip) (fs : List (String × String))
    (overwrite : Bool) :
    action_of (should_clip_video clip fs overwrite) =
      decision_table (dget fs clip.filename).isSome overwrite
        (decide ((dget fs clip.filename).map sha25_hash_of_file =
          some clip.sha256_checksum)) := by
  cases h : dget fs clip.filename with
  | none => simp [should_clip_video, action_of, decision_table, h]
  | some content =>
    cases overwrite with
    | false => simp [should_clip_video, action_of, decision_table, h]
    | true =>
      by_cases hh : sha25_hash_of_file content = clip.sha256_checksum
      · simp [should_clip_video, action_of, decision_table, h, hh]
      · simp [should_clip_video, action_of, decision_table, h, hh]

def c3_clip : VideoClip := ⟨"a_0.mp4", "00:00:10", "00:00:20", "abc"⟩

def c3_fs : List (String × String) := [("a_0.mp4", "drifted")]

/-- C3, counterexample.  An artifact records checksum "abc" while the
on-disk file's digest differs; with `overwrite = false` the code skips
*silently*: no mismatch message is emitted, contrary to the claim's
"SKIP with the hash mismatch reported, not silently trusted". -/
theorem spec_c3_counterexample :
    sha25_hash_of_file "drifted" ≠ "abc" ∧
    should_clip_video c3_clip c3_fs false = (false, []) := by
  exact ⟨by decide, rfl⟩

/-- C3, amended.  For an artifact whose recorded checksum differs from the
digest of the existing on-disk output file: with `overwrite = false` the
reconciliation SKIPs without hashing the file and without reporting
anything (drift is silently ignored on this path; checking is deferred to
`validate`); with `overwrite = true` it PRODUCEs after reporting the
mismatch. -/
theorem spec_c3_amended (clip : VideoClip) (fs : List (String × String))
    (content : String) (hmem : dget fs clip.filename = some content)
    (hdrift : sha25_hash_of_file content ≠ clip.sha256_checksum) :
    should_clip_video clip fs false = (false, []) ∧
    should_clip_video clip fs true =
      (true, ["Hash mismatch for clip " ++ clip.filename]) := by
  constructor
  · simp [should_clip_video, hmem]
  · simp [should_clip_video, hmem, hdrift]

/-- Witness for C3's amended theorem at the drift scenario. -/
theorem spec_c3_witness :
    should_clip_video c3_clip c3_fs false = (false, []) ∧
    should_clip_video c3_clip c3_fs true =
      (true, ["Hash mismatch for clip " ++ c3_clip.filename]) :=
  spec_c3_amended c3_clip c3_fs "drifted" rfl (by decide)

/-- C5, counterexample.  The claim's "exactly DD:DD:DD … nothing else"
iff is false of the code: `re.match`'s `$` also matches just before one
trailing newline, so "24:60:60\n" is accepted although it is not of the
eight-character form; and `\d`/`int` accept any Unicode decimal digit,
so "٢4:60:60" (Arabic-Indic two, value 2) is accepted although its first
character is not an ASCII digit. -/
theorem spec_c5_counterexample :
    is_valid_time_format "24:60:60\n" = true ∧ ¬timestamp_spec "24:60:60\n" ∧
    is_valid_time_format "٢4:60:60" = true ∧ ¬timestamp_spec "٢4:60:60" := by
  refine ⟨by decide, ?_, by decide, ?_⟩
  · rintro ⟨h1, h2, m1, m2, s1, s2, hdata, -⟩
    have hlen := congrArg List.length hdata
    simp at hlen
  · rintro ⟨h1, h2, m1, m2, s1, s2, hdata, hd1, -⟩
    have hlit : ("٢4:60:60").data = ['٢', '4', ':', '6', '0', ':', '6', '0'] := rfl
    rw [hlit] at hdata
    simp only [List.cons.injEq] at hdata
    obtain ⟨he1, -⟩ := hdata
    rw [← he1] at hd1
    exact absurd hd1 (by decide)

/-- C5, amended.  The timestamp validity predicate accepts a string
exactly when it is of the form `DD:DD:DD` — two Unicode decimal digits
(Python `\d`/`int` semantics) in each of three colon-separated fields —
optionally followed by a single trailing newline (Python `$` semantics),
with hours at most 24, minutes at most 60 and seconds at most 60 computed
from the digit values; in particular the lenient upper bound "24:60:60"
is accepted, as is "24:60:60\n". -/
theorem spec_c5_timestamp_grammar :
    (∀ s : String, is_valid_time_format s = true ↔ timestamp_spec_amended s) ∧
    is_valid_time_format "24:60:60" = true ∧
    is_valid_time_format "24:60:60\n" = true := by
  refine ⟨?_, by decide, by decide⟩
  intro s
  constructor
  · intro h
    unfold is_valid_time_format at h
    unfold timestamp_spec_amended
    unfold is_valid_chars at h
    split at h
    case _ h1 h2 c1 m1 m2 c2 s1 s2 heq =>
      simp only [Bool.and_eq_true, beq_iff_eq, decide_eq_true_eq] at h
      obtain ⟨⟨⟨⟨⟨⟨⟨⟨⟨⟨hd1, hd2⟩, hc1⟩, hd3⟩, hd4⟩, hc2⟩, hd5⟩, hd6⟩, hb1⟩, hb2⟩, hb3⟩ := h
      subst hc1
      subst hc2
      exact ⟨h1, h2, m1, m2, s1, s2, Or.inl heq,
        hd1, hd2, hd3, hd4, hd5, hd6, hb1, hb2, hb3⟩
    case _ h1 h2 c1 m1 m2 c2 s1 s2 heq =>
      simp only [Bool.and_eq_true, beq_iff_eq, decide_eq_true_eq] at h
      obtain ⟨⟨⟨⟨⟨⟨⟨⟨⟨⟨hd1, hd2⟩, hc1⟩, hd3⟩, hd4⟩, hc2⟩, hd5⟩, hd6⟩, hb1⟩, hb2⟩, hb3⟩ := h
      subst hc1
      subst hc2
      exact ⟨h1, h2, m1, m2, s1, s2, Or.inr heq,
        hd1, hd2, hd3, hd4, hd5, hd6, hb1, hb2, hb3⟩
    case _ => exact absurd h (by simp)
  · rintro ⟨h1, h2, m1, m2, s1, s2, hdata | hdata,
      hd1, hd2, hd3, hd4, hd5, hd6, hb1, hb2, hb3⟩
    · unfold is_valid_time_format
      rw [hdata]
      simp [is_valid_chars, hd1, hd2, hd3, hd4, hd5, hd6, hb1, hb2, hb3]
    · unfold is_valid_time_format
      rw [hdata]
      simp [is_valid_chars, hd1, hd2, hd3, hd4, hd5, hd6, hb1, hb2, hb3]

/-- Witness for C5's amended theorem: the boundary timestamp "24:60:60"
satisfies the amended grammar predicate. -/
theorem spec_c5_witness : timestamp_spec_amended "24:60:60" :=
  (spec_c5_timestamp_grammar.1 "24:60:60").mp (by decide)

/-- C8.  A dry-run reconciliation changes nothing: the engine returns the
clip list unchanged (no checksum update), leaves the output directory
exactly as it was, issues no materializer invocation, and the final
persistence writes nothing (no backup, no manifest write). -/
theorem spec_c8_dryrun_frame (mat : Invocation → Int × Option String)
    (overwrite : Bool) (pairs : List (String × VideoClip))
    (fs : List (String × String)) (m : VideoClipperManifest) (no_backup : Bool) :
    (∃ r : BatchResult, clip_batch mat overwrite true pairs fs = Except.ok r ∧
      r.clips = pairs ∧ r.output_dir = fs ∧ r.invocations = []) ∧
    save_manifest m no_backup true = [] := by
  constructor
  · induction pairs with
    | nil => exact ⟨⟨[], fs, [], []⟩, rfl, rfl, rfl, rfl⟩
    | cons p rest ih =>
      obtain ⟨video_name, clip⟩ := p
      obtain ⟨r, hr, hc, ho, hi⟩ := ih
      by_cases hdec : (should_clip_video clip fs overwrite).1 = false
      · refine ⟨⟨(video_name, clip) :: r.clips, r.output_dir, r.invocations,
          (should_clip_video clip fs overwrite).2 ++ r.reports⟩, ?_, ?_, ?_, ?_⟩
        · simp [clip_batch, hdec, hr]
        · simp [hc]
        · simp [ho]
        · simp [hi]
      · refine ⟨⟨(video_name, clip) :: r.clips, r.output_dir, r.invocations,
          (should_clip_video clip fs overwrite).2 ++
            ("Dryrun: would have clipped " ++ clip.filename) :: r.reports⟩,
          ?_, ?_, ?_, ?_⟩
        · simp [clip_batch, hdec, hr]
        · simp [hc]
        · simp [ho]
        · simp [hi]
  · rfl

theorem VideoFile.add_new_clip_of_dup {vf : VideoFile} {begin_ end_ : String}
    (h : vf.clips.any (fun p => p.2.start_timestamp == begin_ &&
      p.2.end_timestamp == end_) = true) :
    vf.add_new_clip begin_ end_ = (false, vf) := by
  simp [VideoFile.add_new_clip, h]

/-- After a successful insertion, the inserted `(start, end)` pair is
found by the duplicate scan. -/
theorem VideoFile.add_new_clip_pair_mem (vf : VideoFile) (begin_ end_ : String) :
    ((vf.add_new_clip begin_ end_).2.clips.any
      (fun p => p.2.start_timestamp == begin_ && p.2.end_timestamp == end_)) = true := by
  by_cases h : vf.clips.any (fun p => p.2.start_timestamp == begin_ &&
      p.2.end_timestamp == end_) = true
  · simp [VideoFile.add_new_clip_of_dup h, h]
  · simp only [VideoFile.add_new_clip, h, Bool.false_eq_true, if_false]
    simp only [List.any_eq_true]
    refine ⟨(generate_identifier vf.filename (vf.clips.map Prod.fst),
      ⟨generate_identifier vf.filename (vf.clips.map Prod.fst), begin_, end_, "none"⟩),
      mem_dictInsert_self _ _ _, ?_⟩
    simp

/-- C4.  Declaring an artifact whose `(start, end)` pair is already
declared for that source is rejected and leaves the manifest unchanged;
consequently adding the same pair twice to the same source is rejected the
second time, again leaving the manifest unchanged. -/
theorem spec_c4_duplicate_rejected (m : VideoClipperManifest)
    (src begin_ end_ : String) :
    (pair_declared m src begin_ end_ = true →
      m.add_new_clip src begin_ end_ = (false, m)) ∧
    ((m.add_new_clip src begin_ end_).2.add_new_clip src begin_ end_ =
      (false, (m.add_new_clip src begin_ end_).2)) := by
  have reject : ∀ m' : VideoClipperManifest, pair_declared m' src begin_ end_ = true →
      m'.add_new_clip src begin_ end_ = (false, m') := by
    intro m' h
    unfold pair_declared at h
    cases hvf : dget m'.video_files src with
    | none => rw [hvf] at h; exact absurd h (by simp)
    | some vf =>
      rw [hvf] at h
      simp only [VideoClipperManifest.add_new_clip, hvf,
        VideoFile.add_new_clip_of_dup h]
      rw [dictInsert_of_dget_some hvf]
  refine ⟨reject m, ?_⟩
  have second : pair_declared (m.add_new_clip src begin_ end_).2 src begin_ end_ = true := by
    unfold pair_declared
    cases hvf : dget m.video_files src with
    | none =>
      simp only [VideoClipperManifest.add_new_clip, hvf]
      rw [dget_dictInsert_self]
      exact VideoFile.add_new_clip_pair_mem ⟨src, []⟩ begin_ end_
    | some vf =>
      simp only [VideoClipperManifest.add_new_clip, hvf]
      rw [dget_dictInsert_self]
      exact VideoFile.add_new_clip_pair_mem vf begin_ end_
  exact reject _ second

def c4_manifest : VideoClipperManifest := ⟨Json.str "1",
  [("a.mp4", ⟨"a.mp4",
    [("a_0.mp4", ⟨"a_0.mp4", "00:00:10", "00:00:20", "none"⟩)]⟩)]⟩

/-- Witness for C4: adding the already-declared pair
`(00:00:10, 00:00:20)` to source "a.mp4" is rejected and the manifest is
unchanged. -/
theorem spec_c4_witness :
    c4_manifest.add_new_clip "a.mp4" "00:00:10" "00:00:20" = (false, c4_manifest) :=
  (spec_c4_duplicate_rejected c4_manifest "a.mp4" "00:00:10" "00:00:20").1 (by rfl)

theorem contains_eq_false_of_not_mem {l : List String} {a : String} (h : a ∉ l) :
    l.contains a = false := by
  cases hc : l.contains a with
  | false => rfl
  | true => exact absurd (List.elem_iff.mp hc) h

theorem not_mem_of_contains_eq_false {l : List String} {a : String}
    (h : l.contains a = false) : a ∉ l := by
  intro hm
  have h2 : l.contains a = true := List.elem_iff.mpr hm
  rw [h2] at h
  cases h

theorem prune_foldr_mem (output_dir : List (String × Bool)) (name : String)
    (K : List String) (vids : List (String × VideoFile)) :
    name ∈ vids.foldr (fun p acc =>
      (output_dir.filter (fun ent =>
        glob_matches (pyStem p.1) (pySuffix p.1) ent.1 &&
        !K.contains ent.1 && ent.2)).map Prod.fst ++ acc) [] ↔
    ((name, true) ∈ output_dir ∧ name ∉ K ∧
     ∃ p ∈ vids, glob_matches (pyStem p.1) (pySuffix p.1) name = true) := by
  induction vids with
  | nil => simp
  | cons p rest ih =>
    simp only [List.foldr_cons, List.mem_append, ih, List.mem_map, List.mem_filter]
    constructor
    · rintro (⟨ent, ⟨hent, hcond⟩, hname⟩ | ⟨hdir, hK, q, hq, hg⟩)
      · obtain ⟨n, b⟩ := ent
        simp only at hname
        subst hname
        simp only [Bool.and_eq_true, Bool.not_eq_true'] at hcond
        obtain ⟨⟨hg, hnc⟩, hb⟩ := hcond
        subst hb
        exact ⟨hent, not_mem_of_contains_eq_false hnc, p,
          List.mem_cons_self p rest, hg⟩
      · exact ⟨hdir, hK, q, List.mem_cons_of_mem p hq, hg⟩
    · rintro ⟨hdir, hK, q, hq, hg⟩
      rcases List.mem_cons.mp hq with hq | hq
      · subst hq
        refine Or.inl ⟨(name, true), ⟨hdir, ?_⟩, rfl⟩
        simp only [Bool.and_eq_true, Bool.not_eq_true']
        exact ⟨⟨hg, contains_eq_false_of_not_mem hK⟩, trivial⟩
      · exact Or.inr ⟨hdir, hK, q, hq, hg⟩

def c6_example_manifest : VideoClipperManifest := ⟨Json.str "1",
  [("a.mp4", ⟨"a.mp4",
    [("a_0.mp4", ⟨"a_0.mp4", "00:00:10", "00:00:20", "none"⟩)]⟩)]⟩

/-- C6, amended.  The prune computation returns exactly the regular files
under the output directory whose names match the glob pattern
`{base}_[0-9]*{ext}` (one digit, then any characters) derived from some
source's identifier, and whose name is not declared as a clip name
anywhere in the manifest (the global clip-name set, not the single
source's collection).  The claim's example still holds: with `a_0.mp4`
declared and `a_7.mp4` undeclared on disk, exactly `a_7.mp4` is pruned. -/
theorem spec_c6_amended :
    (∀ (m : VideoClipperManifest) (output_dir : List (String × Bool))
      (name : String),
      name ∈ compute_prune_set m output_dir ↔
        ((name, true) ∈ output_dir ∧ name ∉ known_clip_names m ∧
         ∃ p ∈ m.video_files,
           glob_matches (pyStem p.1) (pySuffix p.1) name = true)) ∧
    compute_prune_set c6_example_manifest
      [("a_0.mp4", true), ("a_7.mp4", true)] = ["a_7.mp4"] := by
  constructor
  · intro m output_dir name
    exact prune_foldr_mem output_dir name (known_clip_names m) m.video_files
  · rfl

def c6_manifest : VideoClipperManifest := ⟨Json.str "1",
  [("a.mp4", ⟨"a.mp4",
    [("b_3.mp4", ⟨"b_3.mp4", "00:00:10", "00:00:20", "none"⟩)]⟩),
   ("b.mp4", ⟨"b.mp4", []⟩)]⟩

def c6_dir : List (String × Bool) := [("a_1x.mp4", true), ("b_3.mp4", true)]

/-- C6, counterexample.  On a manifest declaring sources "a.mp4" (with
clip "b_3.mp4") and "b.mp4" (no clips), and an output directory holding
regular files "a_1x.mp4" and "b_3.mp4": the code prunes exactly
"a_1x.mp4", but the claim's formula says the opposite on both names —
"a_1x.mp4" does not match `{base}_<digits>{ext}` for any source (yet the
code's glob `a_[0-9]*.mp4` matches it), and "b_3.mp4" matches "b.mp4"'s
pattern while not being a key of "b.mp4"'s artifact collection (yet the
code excludes it because it is declared under "a.mp4"). -/
theorem spec_c6_counterexample :
    compute_prune_set c6_manifest c6_dir = ["a_1x.mp4"] ∧
    claimed_prune_spec c6_manifest c6_dir "a_1x.mp4" = false ∧
    claimed_prune_spec c6_manifest c6_dir "b_3.mp4" = true :=
  ⟨rfl, rfl, rfl⟩

theorem clip_roundtrip (name : String) {flds : List (String × Json)}
    (h : clip_wf (Json.obj flds) = true) :
    ∃ c : VideoClip, VideoClip.from_json name flds = some c ∧
      c.filename = name ∧ c.to_json = flds := by
  unfold clip_wf at h
  split at h
  case _ k1 s1 k2 s2 k3 s3 heq =>
    simp only [Bool.and_eq_true, beq_iff_eq] at h
    obtain ⟨⟨hk1, hk2⟩, hk3⟩ := h
    subst hk1
    subst hk2
    subst hk3
    cases heq
    exact ⟨⟨name, s1, s2, s3⟩, rfl, rfl, rfl⟩
  case _ => exact absurd h (by simp)

theorem parseClips_roundtrip (entries : List (String × Json)) :
    ∀ acc : List (String × VideoClip),
    (entries.map Prod.fst).Nodup →
    (∀ k ∈ entries.map Prod.fst, dget acc k = none) →
    (∀ p ∈ entries, clip_wf p.2 = true) →
    ∃ cs, parseClips entries acc = some (acc ++ cs) ∧
      cs.map (fun p => (p.2.filename, Json.obj p.2.to_json)) = entries := by
  induction entries with
  | nil => intro acc _ _ _; exact ⟨[], by simp [parseClips], rfl⟩
  | cons e rest ih =>
    intro acc hnd hfresh hwf
    obtain ⟨name, j⟩ := e
    have hwf0 : clip_wf j = true := hwf (name, j) (List.mem_cons_self _ _)
    cases j with
    | str s => exact absurd hwf0 (by simp [clip_wf])
    | obj flds =>
      obtain ⟨c, hparse, hfn, hto⟩ := clip_roundtrip name hwf0
      have hfr : dget acc name = none := hfresh name (by simp)
      simp only [List.map_cons, List.nodup_cons] at hnd
      obtain ⟨hname, hnd'⟩ := hnd
      have hfresh' : ∀ k ∈ rest.map Prod.fst, dget (acc ++ [(name, c)]) k = none := by
        intro k hk
        rw [dget_append_of_none (hfresh k (by simp [hk]))]
        have hne : ¬name = k := fun hnk => hname (by rw [hnk]; exact hk)
        simp [dget, hne]
      obtain ⟨cs, hrec, hmap⟩ := ih (acc ++ [(name, c)]) hnd' hfresh'
        (fun p hp => hwf p (List.mem_cons_of_mem _ hp))
      refine ⟨(name, c) :: cs, ?_, ?_⟩
      · simp only [parseClips, hparse]
        rw [dictInsert_of_dget_none hfr c, hrec, List.append_assoc]
        rfl
      · simp [hmap, hfn, hto]

theorem video_roundtrip (name : String) {flds : List (String × Json)}
    (h : video_wf (Json.obj flds) = true) :
    ∃ vf : VideoFile, VideoFile.from_json name flds = some vf ∧
      vf.filename = name ∧ vf.to_json = flds := by
  unfold video_wf at h
  split at h
  case _ k clipEntries heq =>
    simp only [Bool.and_eq_true, beq_iff_eq, decide_eq_true_eq, List.all_eq_true] at h
    obtain ⟨⟨hk, hnd⟩, hwf⟩ := h
    subst hk
    cases heq
    obtain ⟨cs, hrec, hmap⟩ := parseClips_roundtrip clipEntries [] hnd
      (by intro k _; rfl) (fun p hp => hwf p hp)
    refine ⟨⟨name, cs⟩, ?_, rfl, ?_⟩
    · simp [VideoFile.from_json, dget, hrec]
    · simp [VideoFile.to_json, hmap]
  case _ => exact absurd h (by simp)

theorem parseVideos_roundtrip (entries : List (String × Json)) :
    ∀ acc : List (String × VideoFile),
    (entries.map Prod.fst).Nodup →
    (∀ k ∈ entries.map Prod.fst, dget acc k = none) →
    (∀ p ∈ entries, video_wf p.2 = true) →
    ∃ vs, parseVideos entries acc = some (acc ++ vs) ∧
      vs.map (fun p => (p.2.filename, Json.obj p.2.to_json)) = entries := by
  induction entries with
  | nil => intro acc _ _ _; exact ⟨[], by simp [parseVideos], rfl⟩
  | cons e rest ih =>
    intro acc hnd hfresh hwf
    obtain ⟨name, j⟩ := e
    have hwf0 : video_wf j = true := hwf (name, j) (List.mem_cons_self _ _)
    cases j with
    | str s => exact absurd hwf0 (by simp [video_wf])
    | obj flds =>
      obtain ⟨vf, hparse, hfn, hto⟩ := video_roundtrip name hwf0
      have hfr : dget acc name = none := hfresh name (by simp)
      simp only [List.map_cons, List.nodup_cons] at hnd
      obtain ⟨hname, hnd'⟩ := hnd
      have hfresh' : ∀ k ∈ rest.map Prod.fst, dget (acc ++ [(name, vf)]) k = none := by
        intro k hk
        rw [dget_append_of_none (hfresh k (by simp [hk]))]
        have hne : ¬name = k := fun hnk => hname (by rw [hnk]; exact hk)
        simp [dget, hne]
      obtain ⟨vs, hrec, hmap⟩ := ih (acc ++ [(name, vf)]) hnd' hfresh'
        (fun p hp => hwf p (List.mem_cons_of_mem _ hp))
      refine ⟨(name, vf) :: vs, ?_, ?_⟩
      · simp only [parseVideos, hparse]
        rw [dictInsert_of_dget_none hfr vf, hrec, List.append_assoc]
        rfl
      · simp [hmap, hfn, hto]

/-- C7.  For every manifest document in canonical form — a string
`version` followed by the `videos` object, names distinct, each artifact
carrying exactly `start`, `end`, `sha256_checksum` in that order —
parsing succeeds and serializing the parse result reproduces the document
exactly, insertion order of sources and artifacts included. -/
theorem spec_c7_roundtrip (d : Json) (h : manifest_wf d = true) :
    ∃ m : VideoClipperManifest, VideoClipperManifest.from_json d = some m ∧
      m.to_json = d := by
  cases d with
  | str s => simp [manifest_wf] at h
  | obj fields =>
    rcases fields with _ | ⟨⟨k1, j1⟩, _ | ⟨⟨k2, j2⟩, _ | ⟨p3, rest⟩⟩⟩
    · simp [manifest_wf] at h
    · simp [manifest_wf] at h
    · cases j1 with
      | obj f1 => simp [manifest_wf] at h
      | str v =>
        cases j2 with
        | str s2 => simp [manifest_wf] at h
        | obj videoEntries =>
          unfold manifest_wf at h
          simp only [Bool.and_eq_true, beq_iff_eq, decide_eq_true_eq,
            List.all_eq_true] at h
          obtain ⟨⟨⟨hk1, hk2⟩, hnd⟩, hwf⟩ := h
          subst hk1
          subst hk2
          obtain ⟨vs, hrec, hmap⟩ := parseVideos_roundtrip videoEntries [] hnd
            (by intro k _; rfl) (fun p hp => hwf p hp)
          refine ⟨⟨Json.str v, vs⟩, ?_, ?_⟩
          · simp [VideoClipperManifest.from_json, dget, KEY_VERSION, KEY_VIDEOS, hrec]
          · simp [VideoClipperManifest.to_json, hmap]
    · simp [manifest_wf] at h

def c7_doc : Json := Json.obj [(KEY_VERSION, Json.str "1"),
  (KEY_VIDEOS, Json.obj [("videoA.mp4", Json.obj [(KEY_CLIPS, Json.obj
    [("videoA_0.mp4", Json.obj [(KEY_START, Json.str "00:00:27"),
      (KEY_END, Json.str "00:34:35"),
      (KEY_SHA256_CHECKSUM, Json.str "d6513")])])])])]

/-- Witness for C7 at a concrete canonical document. -/
theorem spec_c7_witness :
    ∃ m : VideoClipperManifest,
      VideoClipperManifest.from_json c7_doc = some m ∧ m.to_json = c7_doc :=
  spec_c7_roundtrip c7_doc (by rfl)

theorem digitChar_inj_lt : ∀ a < 10, ∀ b < 10, Nat.digitChar a = Nat.digitChar b → a = b := by
  decide

theorem map_digitChar_inj : ∀ l1 l2 : List Nat, (∀ x ∈ l1, x < 10) → (∀ x ∈ l2, x < 10) →
    l1.map Nat.digitChar = l2.map Nat.digitChar → l1 = l2 := by
  intro l1
  induction l1 with
  | nil =>
    intro l2 _ _ h
    cases l2 with
    | nil => rfl
    | cons b t => simp at h
  | cons a t ih =>
    intro l2 h1 h2 h
    cases l2 with
    | nil => simp at h
    | cons b t2 =>
      simp only [List.map_cons, List.cons.injEq] at h
      obtain ⟨hab, ht⟩ := h
      have hab' : a = b := digitChar_inj_lt a (h1 a (by simp)) b (h2 b (by simp)) hab
      subst hab'
      rw [ih t2 (fun x hx => h1 x (by simp [hx])) (fun x hx => h2 x (by simp [hx])) ht]

theorem digits_bound (n : Nat) : ∀ x ∈ Nat.digits 10 n, x < 10 :=
  fun _ hx => Nat.digits_lt_base (by omega) hx

theorem natRepr_inj : Function.Injective natRepr := by
  intro m n h
  by_cases hm : m = 0 <;> by_cases hn : n = 0
  · rw [hm, hn]
  · exfalso
    subst hm
    rw [natRepr, natRepr, if_pos rfl, if_neg hn] at h
    have hd : (['0'] : List Char) = (Nat.digits 10 n).reverse.map Nat.digitChar :=
      congrArg String.data h
    have hlen : (Nat.digits 10 n).length = 1 := by
      have := congrArg List.length hd
      simpa using this.symm
    obtain ⟨d, hdig⟩ := List.length_eq_one.mp hlen
    rw [hdig] at hd
    simp only [List.reverse_cons, List.reverse_nil, List.nil_append, List.map_cons,
      List.map_nil, List.cons.injEq] at hd
    have hd10 : d < 10 := digits_bound n d (by rw [hdig]; simp)
    have : (0 : Nat) = d := digitChar_inj_lt 0 (by omega) d hd10 (by rw [← hd.1]; rfl)
    have hn0 : n = 0 := by
      have ho := Nat.ofDigits_digits 10 n
      rw [hdig] at ho
      simp [Nat.ofDigits] at ho
      omega
    exact hn hn0
  · exfalso
    subst hn
    rw [natRepr, natRepr, if_pos rfl, if_neg hm] at h
    have hd : (Nat.digits 10 m).reverse.map Nat.digitChar = (['0'] : List Char) :=
      congrArg String.data h
    have hlen : (Nat.digits 10 m).length = 1 := by
      have := congrArg List.length hd
      simpa using this
    obtain ⟨d, hdig⟩ := List.length_eq_one.mp hlen
    rw [hdig] at hd
    simp only [List.reverse_cons, List.reverse_nil, List.nil_append, List.map_cons,
      List.map_nil, List.cons.injEq] at hd
    have hd10 : d < 10 := digits_bound m d (by rw [hdig]; simp)
    have : d = 0 := digitChar_inj_lt d hd10 0 (by omega) (by rw [hd.1]; rfl)
    have hm0 : m = 0 := by
      have ho := Nat.ofDigits_digits 10 m
      rw [hdig] at ho
      simp [Nat.ofDigits] at ho
      omega
    exact hm hm0
  · rw [natRepr, natRepr, if_neg hm, if_neg hn] at h
    have hd := congrArg String.data h
    have hrev : (Nat.digits 10 m).reverse = (Nat.digits 10 n).reverse :=
      map_digitChar_inj _ _ (fun x hx => digits_bound m x (List.mem_reverse.mp hx))
        (fun x hx => digits_bound n x (List.mem_reverse.mp hx)) hd
    have hdig : Nat.digits 10 m = Nat.digits 10 n := List.reverse_injective hrev
    have h1 := Nat.ofDigits_digits 10 m
    rw [hdig, Nat.ofDigits_digits] at h1
    exact h1.symm

theorem sdata_append (s t : String) : (s ++ t).data = s.data ++ t.data := by
  cases s
  cases t
  rfl

theorem clip_candidate_inj (filename : String) :
    Function.Injective (clip_candidate filename) := by
  intro i j h
  unfold clip_candidate at h
  have hd := congrArg String.data h
  simp only [sdata_append] at hd
  have h1 := List.append_cancel_right hd
  have h2 := List.append_cancel_left h1
  exact natRepr_inj (String.ext h2)

theorem exists_free_candidate (filename : String) (existing : List String) :
    ∃ i, i ≤ existing.length ∧ clip_candidate filename i ∉ existing := by
  by_contra hcon
  push_neg at hcon
  have hsub : ((List.range (existing.length + 1)).map (clip_candidate filename)) ⊆ existing := by
    intro x hx
    simp only [List.mem_map, List.mem_range] at hx
    obtain ⟨i, hi, rfl⟩ := hx
    exact hcon i (Nat.lt_succ_iff.mp hi)
  have hnd : ((List.range (existing.length + 1)).map (clip_candidate filename)).Nodup :=
    (List.nodup_range _).map (clip_candidate_inj filename)
  have hcard : existing.length + 1 ≤ existing.length := by
    calc existing.length + 1
        = ((List.range (existing.length + 1)).map (clip_candidate filename)).length := by simp
      _ = ((List.range (existing.length + 1)).map (clip_candidate filename)).toFinset.card :=
          (List.toFinset_card_of_nodup hnd).symm
      _ ≤ existing.toFinset.card :=
          Finset.card_le_card (fun x hx => List.mem_toFinset.mpr (hsub (List.mem_toFinset.mp hx)))
      _ ≤ existing.length := List.toFinset_card_le existing
  omega

theorem generate_go_spec (filename : String) (existing : List String) :
    ∀ fuel start : Nat,
    (∃ i, start ≤ i ∧ i < start + fuel ∧ clip_candidate filename i ∉ existing) →
    generate_identifier_go filename existing fuel start ∉ existing ∧
    ∃ k, start ≤ k ∧
      generate_identifier_go filename existing fuel start = clip_candidate filename k ∧
      ∀ j, start ≤ j → j < k → clip_candidate filename j ∈ existing := by
  intro fuel
  induction fuel with
  | zero =>
    rintro start ⟨i, h1, h2, _⟩
    omega
  | succ fuel ih =>
    rintro start ⟨i, h1, h2, h3⟩
    by_cases hc : existing.contains (clip_candidate filename start) = true
    · have hmem : clip_candidate filename start ∈ existing := List.elem_iff.mp hc
      have hne : i ≠ start := fun he => h3 (he ▸ hmem)
      obtain ⟨hnm, k, hk1, hk2, hk3⟩ := ih (start + 1) ⟨i, by omega, by omega, h3⟩
      rw [generate_identifier_go, if_pos hc]
      refine ⟨hnm, k, by omega, hk2, ?_⟩
      intro j hj1 hj2
      by_cases hjs : j = start
      · exact hjs ▸ hmem
      · exact hk3 j (by omega) hj2
    · have hnmem : clip_candidate filename start ∉ existing :=
        not_mem_of_contains_eq_false (Bool.not_eq_true _ ▸ hc)
      rw [generate_identifier_go, if_neg hc]
      exact ⟨hnmem, start, Nat.le_refl start, rfl, fun j hj1 hj2 => absurd hj2 (Nat.not_lt.mpr hj1)⟩

/-- C9.  The identifier generator searches ordinals 0, 1, 2, … and
returns the candidate of the first ordinal whose name is not in the
existing set: the result is never in the set, every smaller ordinal's
candidate is already taken, and a later call against any set containing
the first result never returns it again. -/
theorem spec_c9_generate_identifier (filename : String) (existing : List String) :
    generate_identifier filename existing ∉ existing ∧
    (∃ k, generate_identifier filename existing = clip_candidate filename k ∧
      ∀ j < k, clip_candidate filename j ∈ existing) ∧
    ∀ later : List String, generate_identifier filename existing ∈ later →
      generate_identifier filename later ≠ generate_identifier filename existing := by
  have gen_spec : ∀ ex : List String, generate_identifier filename ex ∉ ex ∧
      ∃ k, generate_identifier filename ex = clip_candidate filename k ∧
        ∀ j < k, clip_candidate filename j ∈ ex := by
    intro ex
    obtain ⟨i, hle, hnm⟩ := exists_free_candidate filename ex
    obtain ⟨h1, k, _, h2, h3⟩ := generate_go_spec filename ex (ex.length + 1) 0
      ⟨i, Nat.zero_le i, by omega, hnm⟩
    exact ⟨h1, k, h2, fun j hj => h3 j (Nat.zero_le j) hj⟩
  refine ⟨(gen_spec existing).1, (gen_spec existing).2, ?_⟩
  intro later hmem heq
  exact (gen_spec later).1 (by rw [heq]; exact hmem)

/-- Witness for C9: the identifier generated against the empty set is
"a_0.mp4"; once it is in the set, a subsequent call returns something
different. -/
theorem spec_c9_witness :
    generate_identifier "a.mp4" ["a_0.mp4"] ≠ generate_identifier "a.mp4" [] :=
  (spec_c9_generate_identifier "a.mp4" []).2.2 ["a_0.mp4"] (by decide)

theorem clip_parse_some (name : String) {flds : List (String × Json)}
    (h : clip_struct_wf (Json.obj flds) = true) :
    ∃ c, VideoClip.from_json name flds = some c := by
  unfold clip_struct_wf at h
  simp only [Bool.and_eq_true, Option.isSome_iff_exists] at h
  obtain ⟨⟨s1, hs1⟩, s2, hs2⟩ := h
  refine ⟨⟨name, s1, s2, (jstr? (dget flds KEY_SHA256_CHECKSUM)).getD "none"⟩, ?_⟩
  simp [VideoClip.from_json, hs1, hs2]

theorem parseClips_some (entries : List (String × Json)) :
    ∀ acc, (∀ p ∈ entries, clip_struct_wf p.2 = true) →
    ∃ cs, parseClips entries acc = some cs := by
  induction entries with
  | nil => intro acc _; exact ⟨acc, rfl⟩
  | cons e rest ih =>
    intro acc hwf
    obtain ⟨name, j⟩ := e
    have hwf0 := hwf (name, j) (List.mem_cons_self _ _)
    cases j with
    | str s => exact absurd hwf0 (by simp [clip_struct_wf])
    | obj flds =>
      obtain ⟨c, hc⟩ := clip_parse_some name hwf0
      obtain ⟨cs, hcs⟩ := ih (dictInsert acc name c)
        (fun p hp => hwf p (List.mem_cons_of_mem _ hp))
      exact ⟨cs, by simp [parseClips, hc, hcs]⟩

theorem video_parse_some (name : String) {flds : List (String × Json)}
    (h : video_struct_wf (Json.obj flds) = true) :
    ∃ vf, VideoFile.from_json name flds = some vf := by
  have h0 : (match dget flds KEY_CLIPS with
      | some (Json.obj entries) => entries.all (fun p => clip_struct_wf p.2)
      | _ => false) = true := h
  cases hc : dget flds KEY_CLIPS with
  | none =>
    rw [hc] at h0
    exact absurd (h0 : false = true) (by decide)
  | some j =>
    rw [hc] at h0
    cases j with
    | str s =>
      have hx : false = true := h0
      exact absurd hx (by decide)
    | obj entries =>
      have h2 : entries.all (fun p => clip_struct_wf p.2) = true := h0
      rw [List.all_eq_true] at h2
      obtain ⟨cs, hcs⟩ := parseClips_some entries [] (fun p hp => h2 p hp)
      exact ⟨⟨name, cs⟩, by simp [VideoFile.from_json, hc, hcs]⟩

theorem parseVideos_some (entries : List (String × Json)) :
    ∀ acc, (∀ p ∈ entries, video_struct_wf p.2 = true) →
    ∃ vs, parseVideos entries acc = some vs := by
  induction entries with
  | nil => intro acc _; exact ⟨acc, rfl⟩
  | cons e rest ih =>
    intro acc hwf
    obtain ⟨name, j⟩ := e
    have hwf0 := hwf (name, j) (List.mem_cons_self _ _)
    cases j with
    | str s => exact absurd hwf0 (by simp [video_struct_wf])
    | obj flds =>
      obtain ⟨vf, hv⟩ := video_parse_some name hwf0
      obtain ⟨vs, hvs⟩ := ih (dictInsert acc name vf)
        (fun p hp => hwf p (List.mem_cons_of_mem _ hp))
      exact ⟨vs, by simp [parseVideos, hv, hvs]⟩

theorem manifest_parse_some {d : Json} (h : manifest_struct_wf d = true) :
    ∃ m, VideoClipperManifest.from_json d = some m := by
  cases d with
  | str s => exact absurd h (by simp [manifest_struct_wf])
  | obj fields =>
    have h0 : ((dget fields KEY_VERSION).isSome &&
        (match dget fields KEY_VIDEOS with
         | some (Json.obj entries) => entries.all (fun p => video_struct_wf p.2)
         | _ => false)) = true := h
    simp only [Bool.and_eq_true] at h0
    obtain ⟨h1, h2⟩ := h0
    obtain ⟨ver, hver⟩ := Option.isSome_iff_exists.mp h1
    cases hv : dget fields KEY_VIDEOS with
    | none =>
      rw [hv] at h2
      exact absurd (h2 : false = true) (by decide)
    | some j =>
      rw [hv] at h2
      cases j with
      | str s =>
        have hx : false = true := h2
        exact absurd hx (by decide)
      | obj entries =>
        have h3 : entries.all (fun p => video_struct_wf p.2) = true := h2
        rw [List.all_eq_true] at h3
        obtain ⟨vs, hvs⟩ := parseVideos_some entries [] (fun p hp => h3 p hp)
        exact ⟨⟨ver, vs⟩,
          by simp [VideoClipperManifest.from_json, hver, hv, hvs]⟩

theorem validate_of_valid (m : VideoClipperManifest) (input_files : List String)
    (h : ∀ p ∈ m.video_files, p.2.filename ∈ input_files ∧
      ∀ q ∈ p.2.clips, is_valid_time_format q.2.start_timestamp = true ∧
        is_valid_time_format q.2.end_timestamp = true) :
    validate_input_files m input_files = true := by
  unfold validate_input_files
  rw [List.all_eq_true]
  intro p hp
  obtain ⟨h1, h2⟩ := h p hp
  simp only [Bool.and_eq_true]
  refine ⟨List.elem_iff.mpr h1, ?_⟩
  rw [List.all_eq_true]
  intro q hq
  obtain ⟨hq1, hq2⟩ := h2 q hq
  simp [hq1, hq2]

/-- C10.  Parsing enforces only structural presence, and source validation
checks only that source files exist and that timestamps match the
grammar: every structurally well-formed document parses successfully, and
the parse result passes validation whenever its sources exist and its
timestamps are grammatical — no start-before-end check and no
duplicate-pair check is applied on this path (the witness document
violates both).  The start-before-end gate exists only on the
artifact-addition path: `add_command`'s checks pass only when start is
lexicographically below end. -/
theorem spec_c10_invariants_not_enforced :
    (∀ (d : Json) (input_files : List String),
      manifest_struct_wf d = true →
      ∃ m, VideoClipperManifest.from_json d = some m ∧
        ((∀ p ∈ m.video_files, p.2.filename ∈ input_files ∧
          ∀ q ∈ p.2.clips, is_valid_time_format q.2.start_timestamp = true ∧
            is_valid_time_format q.2.end_timestamp = true) →
          validate_input_files m input_files = true)) ∧
    (∀ begin_ end_ : String, add_command_checks begin_ end_ = true →
      begin_ < end_) := by
  constructor
  · intro d files h
    obtain ⟨m, hm⟩ := manifest_parse_some h
    exact ⟨m, hm, fun hv => validate_of_valid m files hv⟩
  · intro b e h
    unfold add_command_checks at h
    simp only [Bool.and_eq_true, Bool.not_eq_true', decide_eq_false_iff_not] at h
    exact not_le.mp h.2

def c10_doc : Json := Json.obj [(KEY_VERSION, Json.str "1"),
  (KEY_VIDEOS, Json.obj [("a.mp4", Json.obj [(KEY_CLIPS, Json.obj
    [("a_0.mp4", Json.obj [(KEY_START, Json.str "00:00:20"),
       (KEY_END, Json.str "00:00:10")]),
     ("a_1.mp4", Json.obj [(KEY_START, Json.str "00:00:20"),
       (KEY_END, Json.str "00:00:10"),
       (KEY_SHA256_CHECKSUM, Json.str "abc")])])])])]

def c10_manifest : VideoClipperManifest := ⟨Json.str "1",
  [("a.mp4", ⟨"a.mp4",
    [("a_0.mp4", ⟨"a_0.mp4", "00:00:20", "00:00:10", "none"⟩),
     ("a_1.mp4", ⟨"a_1.mp4", "00:00:20", "00:00:10", "abc"⟩)]⟩)]⟩

/-- Witness for C10: a document whose artifact has start after end, twice
with the same pair, still parses and passes validation. -/
theorem spec_c10_witness :
    (VideoClipperManifest.from_json c10_doc = some c10_manifest ∧
     validate_input_files c10_manifest ["a.mp4"] = true ∧
     violates_artifact_invariants c10_manifest = true) ∧
    "00:00:10" < "00:00:20" := by
  obtain ⟨m, hm, hv⟩ :=
    spec_c10_invariants_not_enforced.1 c10_doc ["a.mp4"] (by rfl)
  have hme : some m = some c10_manifest := by rw [← hm]; rfl
  have hm2 : m = c10_manifest := Option.some_inj.mp hme
  subst hm2
  have hviol : violates_artifact_invariants c10_manifest = true := by
    unfold violates_artifact_invariants
    rw [List.any_eq_true]
    refine ⟨("a.mp4", ⟨"a.mp4",
      [("a_0.mp4", ⟨"a_0.mp4", "00:00:20", "00:00:10", "none"⟩),
       ("a_1.mp4", ⟨"a_1.mp4", "00:00:20", "00:00:10", "abc"⟩)]⟩),
      by decide, ?_⟩
    rw [Bool.or_eq_true]
    right
    decide
  have hchecks : add_command_checks "00:00:10" "00:00:20" = true := by
    unfold add_command_checks
    have hle : decide (("00:00:20" : String) ≤ "00:00:10") = false := by
      rw [decide_eq_false_iff_not]
      simp
      decide
    rw [hle]
    decide
  exact ⟨⟨hm, hv (by decide), hviol⟩,
    spec_c10_invariants_not_enforced.2 "00:00:10" "00:00:20" hchecks⟩

/-- C1, amended.  When the materializer fails (non-zero status) for an
artifact, the failure is reported — but the engine then *unconditionally*
recomputes the destination's hash and stores it on the artifact, exactly
as on success: if a file is present at the destination after the failed
invocation (for instance the stale pre-existing output), its digest is
stored and the batch continues with the remaining artifacts, aborting only
if the remainder aborts; and whenever the batch completes, the
non-dry-run persistence always writes the manifest, including any hashes
updated after failed productions.  (If no file is present after the
failure, the re-hash step raises and the whole batch aborts unsaved,
which is the `Except.error` branch of `clip_batch`.) -/
theorem spec_c1_amended (mat : Invocation → Int × Option String)
    (overwrite : Bool) (video_name : String) (clip : VideoClip)
    (rest : List (String × VideoClip)) (fs : List (String × String))
    (rc : Int) (content : String)
    (hdec : (should_clip_video clip fs overwrite).1 = true)
    (hmat : mat ⟨video_name, clip.start_timestamp, clip.end_timestamp,
      clip.filename⟩ = (rc, some content))
    (hrc : rc ≠ 0) :
    clip_batch mat overwrite false ((video_name, clip) :: rest) fs =
      (match clip_batch mat overwrite false rest
          (dictInsert fs clip.filename content) with
       | Except.error e => Except.error e
       | Except.ok r => Except.ok ⟨(video_name,
             { clip with sha256_checksum := sha25_hash_of_file content }) :: r.clips,
           r.output_dir,
           (⟨video_name, clip.start_timestamp, clip.end_timestamp,
             clip.filename⟩ : Invocation) :: r.invocations,
           (should_clip_video clip fs overwrite).2 ++
             ["Error creating clip " ++ clip.filename] ++ r.reports⟩) ∧
    (∀ (m : VideoClipperManifest) (no_backup : Bool),
      SaveEffect.writeManifest m.to_json ∈ save_manifest m no_backup false) := by
  constructor
  · have hrcb : (rc == 0) = false := beq_eq_false_iff_ne.mpr hrc
    simp only [clip_batch, hdec, hmat, hrcb, fsAfter, Bool.true_eq_false, if_false,
      Bool.false_eq_true, dget_dictInsert_self]
  · intro m no_backup
    unfold save_manifest
    cases no_backup <;> simp

def c1_mat : Invocation → Int × Option String := fun _ => (1, some "old")

def c1_clip : VideoClip := ⟨"a_0.mp4", "00:00:10", "00:00:20", "stale"⟩

def c1_fs : List (String × String) := [("a_0.mp4", "old")]

/-- C1, counterexample.  A run in which the materializer fails (returns 1)
for the single artifact, leaving the stale destination file in place: the
engine stores a freshly recomputed `content_hash` ("sha256:old", the
digest of the stale content) onto the artifact even though production
failed — refuting "the content_hash is recomputed and stored only on
successful production". -/
theorem spec_c1_counterexample :
    (c1_mat ⟨"a.mp4", "00:00:10", "00:00:20", "a_0.mp4"⟩).1 ≠ 0 ∧
    clip_batch c1_mat true false [("a.mp4", c1_clip)] c1_fs =
      Except.ok ⟨[("a.mp4", ⟨"a_0.mp4", "00:00:10", "00:00:20", "sha256:old"⟩)],
        c1_fs, [⟨"a.mp4", "00:00:10", "00:00:20", "a_0.mp4"⟩],
        ["Hash mismatch for clip a_0.mp4", "Error creating clip a_0.mp4"]⟩ ∧
    "sha256:old" ≠ "stale" :=
  ⟨by decide, rfl, by decide⟩

/-- Witness for C1's amended theorem at the failing-materializer run. -/
theorem spec_c1_witness :
    clip_batch c1_mat true false [("a.mp4", c1_clip)] c1_fs =
      Except.ok ⟨[("a.mp4", { c1_clip with
          sha256_checksum := sha25_hash_of_file "old" })],
        c1_fs, [⟨"a.mp4", "00:00:10", "00:00:20", "a_0.mp4"⟩],
        ["Hash mismatch for clip a_0.mp4"] ++ ["Error creating clip a_0.mp4"] ++ []⟩ ∧
    SaveEffect.writeManifest (VideoClipperManifest.to_json ⟨Json.str "1", []⟩) ∈
      save_manifest ⟨Json.str "1", []⟩ false false := by
  have h := spec_c1_amended c1_mat true "a.mp4" c1_clip [] c1_fs 1 "old"
    (by decide) rfl (by decide)
  refine ⟨?_, h.2 ⟨Json.str "1", []⟩ false⟩
  rw [h.1]
  rfl

/-- Witness for C6's amended theorem: the undeclared "a_7.mp4" is in the
prune set. -/
theorem spec_c6_witness :
    "a_7.mp4" ∈ compute_prune_set c6_example_manifest
      [("a_0.mp4", true), ("a_7.mp4", true)] :=
  (spec_c6_amended.1 c6_example_manifest
      [("a_0.mp4", true), ("a_7.mp4", true)] "a_7.mp4").mpr
    ⟨by decide, by decide,
     ("a.mp4", ⟨"a.mp4", [("a_0.mp4", ⟨"a_0.mp4", "00:00:10", "00:00:20", "none"⟩)]⟩),
     by decide, by rfl⟩
